import Mathlib

/-!
Shallow embedding of the k-armed bandit testbed
(`rl/environment/bandits/k_armed_bandit.py`) and the epsilon-greedy agent
(`rl/algorithms/bandits/epsilon_greedy.py`).

Modelling conventions:
* Real numbers become `ℚ` (the claims are about exact arithmetic).
* The global numpy random stream becomes an explicit list of rational draws
  threaded through every stochastic operation; each draw of
  `np.random.normal(m, s)` consumes one element `z` and yields `m + s*z`,
  `np.random.random()` consumes one element (assumed in `[0,1)`), and
  `np.random.randint(n)` consumes one element `u` and yields `⌊u*n⌋`.
* Python exceptions become `Except String` (constructors, `reset`, `train`)
  or `Option` (`Bandit.step`, whose only failure is an `IndexError`).
* numpy integer array indexing, which accepts negative indices counting from
  the end, is embedded by `npGetInt`.
-/

/-- The random stream: a list of pending draws. -/
abbrev Rng := List ℚ

/-- Consume one draw from the stream (an exhausted stream yields `0`). -/
def draw (rng : Rng) : ℚ × Rng := (rng.headD 0, rng.tail)

/-- One sample of `np.random.normal(mean, std)`. -/
def normalDraw (mean std : ℚ) (rng : Rng) : ℚ × Rng :=
  (mean + std * rng.headD 0, rng.tail)

/-- `np.random.normal(mean, std, n)`: a vector of `n` normal samples. -/
def normals (mean std : ℚ) : ℕ → Rng → List ℚ × Rng
  | 0, rng => ([], rng)
  | n + 1, rng =>
    let rest := normals mean std n rng.tail
    ((mean + std * rng.headD 0) :: rest.1, rest.2)

/-- `np.random.randint(n)`: an integer uniform on `[0, n)`. -/
def npRandint (n : ℕ) (rng : Rng) : ℕ × Rng :=
  ((⌊rng.headD 0 * (n : ℚ)⌋).toNat, rng.tail)

/-- numpy integer indexing into a 1-d array: indices in `[0, len)` read
directly, indices in `[-len, 0)` read from the end, anything else is an
`IndexError`. -/
def npGetInt (xs : List ℚ) (i : ℤ) : Option ℚ :=
  if 0 ≤ i ∧ i < (xs.length : ℤ) then some (xs.getD i.toNat 0)
  else if -(xs.length : ℤ) ≤ i ∧ i < 0 then some (xs.getD (i + (xs.length : ℤ)).toNat 0)
  else none

/-- The maximum entry of a list (`0` for the empty list). -/
def listMax (l : List ℚ) : ℚ := l.tail.foldl max (l.headD 0)

/-- `np.argmax`: the index of the maximum entry, first occurrence on ties. -/
def argmaxFirst (l : List ℚ) : ℕ := l.indexOf (listMax l)

/-- One run's stationary environment (`Bandit` in
`k_armed_bandit.py`): `k` arms, reward noise `bandit_std`, hidden true
values `q_star`, and the precomputed `best_action`. -/
structure Bandit where
  k : ℕ
  bandit_std : ℚ
  q_star : List ℚ
  best_action : ℕ
  deriving Repr, DecidableEq

/-- `Bandit.__init__`, success path: draw `k` true values from
`Normal(k_mean, k_std)` and record the arg-max as `best_action`. This
value-level embedding is total; the construction-time `ValueError` that
`np.argmax` raises when `k = 0` is captured by `mkBanditE` below, which
agrees with this definition whenever `0 < k`. -/
def mkBandit (k : ℕ) (k_mean k_std bandit_std : ℚ) (rng : Rng) : Bandit × Rng :=
  let qs := normals k_mean k_std k rng
  ({ k := k, bandit_std := bandit_std, q_star := qs.1,
     best_action := argmaxFirst qs.1 }, qs.2)

/-- `Bandit.step`: sample a reward from
`Normal(q_star[action], bandit_std)`; `none` models the `IndexError` raised
by numpy when `action` is out of range. -/
def Bandit.step (b : Bandit) (action : ℤ) (rng : Rng) : Option (ℚ × Rng) :=
  match npGetInt b.q_star action with
  | none => none
  | some m => some (normalDraw m b.bandit_std rng)

/-- The testbed (`KArmedTestbed`): `num_runs` independent bandits sharing
the generating parameters. -/
structure KArmedTestbed where
  num_runs : ℕ
  k : ℕ
  k_mean : ℚ
  k_std : ℚ
  bandit_std : ℚ
  bandits : List Bandit
  deriving Repr, DecidableEq

/-- Build `num_runs` bandits, threading the random stream run by run. -/
def mkBandits (k : ℕ) (k_mean k_std bandit_std : ℚ) : ℕ → Rng → List Bandit × Rng
  | 0, rng => ([], rng)
  | n + 1, rng =>
    let b := mkBandit k k_mean k_std bandit_std rng
    let rest := mkBandits k k_mean k_std bandit_std n b.2
    (b.1 :: rest.1, rest.2)

/-- `KArmedTestbed.__init__` (the seed has already been turned into the
stream `rng`). -/
def mkKArmedTestbed (num_runs k : ℕ) (k_mean k_std bandit_std : ℚ) (rng : Rng) :
    KArmedTestbed × Rng :=
  let bs := mkBandits k k_mean k_std bandit_std num_runs rng
  ({ num_runs := num_runs, k := k, k_mean := k_mean, k_std := k_std,
     bandit_std := bandit_std, bandits := bs.1 }, bs.2)

/-- `np.argmax` as called by `Bandit.__init__`: the first-occurrence
arg-max on a non-empty array, a `ValueError` on an empty one. -/
def npArgmax : List ℚ → Except String ℕ
  | [] => Except.error "ValueError: attempt to get argmax of an empty sequence"
  | x :: xs => Except.ok (argmaxFirst (x :: xs))

/-- `Bandit.__init__` with its failure behaviour: building `best_action`
via `np.argmax` raises a `ValueError` when `q_star` is empty, i.e. when
`k = 0` (a negative `k` already fails inside `np.random.normal` and is not
representable over `ℕ`). On success the result is exactly `mkBandit`. -/
def mkBanditE (k : ℕ) (k_mean k_std bandit_std : ℚ) (rng : Rng) :
    Except String (Bandit × Rng) :=
  let qs := normals k_mean k_std k rng
  match npArgmax qs.1 with
  | Except.error e => Except.error e
  | Except.ok ba =>
    let b : Bandit :=
      { k := k, bandit_std := bandit_std, q_star := qs.1, best_action := ba }
    Except.ok (b, qs.2)

/-- The bandit-building loop of `KArmedTestbed.__init__` with the failure
behaviour of `Bandit.__init__`: the first failing bandit aborts
construction. -/
def mkBanditsE (k : ℕ) (k_mean k_std bandit_std : ℚ) :
    ℕ → Rng → Except String (List Bandit × Rng)
  | 0, rng => Except.ok ([], rng)
  | n + 1, rng =>
    match mkBanditE k k_mean k_std bandit_std rng with
    | Except.error e => Except.error e
    | Except.ok b =>
      match mkBanditsE k k_mean k_std bandit_std n b.2 with
      | Except.error e => Except.error e
      | Except.ok rest => Except.ok (b.1 :: rest.1, rest.2)

/-- `KArmedTestbed.__init__` with the failure behaviour of
`Bandit.__init__`: with `num_runs = 0` no bandit is built and construction
succeeds for any `k`; with `num_runs ≥ 1` and `k = 0` the first bandit's
`np.argmax` raises. Agrees with `mkKArmedTestbed` whenever `0 < k`. -/
def mkKArmedTestbedE (num_runs k : ℕ) (k_mean k_std bandit_std : ℚ) (rng : Rng) :
    Except String (KArmedTestbed × Rng) :=
  match mkBanditsE k k_mean k_std bandit_std num_runs rng with
  | Except.error e => Except.error e
  | Except.ok bs =>
    let tb : KArmedTestbed :=
      { num_runs := num_runs, k := k, k_mean := k_mean, k_std := k_std,
        bandit_std := bandit_std, bandits := bs.1 }
    Except.ok (tb, bs.2)

/-- The epsilon-greedy agent (`EpsilonGreedy` in `epsilon_greedy.py`):
configuration fields plus the mutable learning state `q_values` /
`action_counts`. -/
structure EpsilonGreedy where
  env : KArmedTestbed
  epsilon : ℚ
  max_steps : ℕ
  initialisation : ℚ
  use_weighted_average : Bool
  alpha : ℚ
  num_actions : ℕ
  q_values : List ℚ
  action_counts : List ℕ
  deriving Repr, DecidableEq

/-- `EpsilonGreedy.reset`: re-initialise `q_values` (to zeros when
`initialisation == 0`, to `initialisation` when it is positive, raising
`ValueError` otherwise) and zero `action_counts`. -/
def EpsilonGreedy.reset (a : EpsilonGreedy) : Except String EpsilonGreedy :=
  if a.initialisation = 0 then
    Except.ok { a with q_values := List.replicate a.num_actions 0,
                       action_counts := List.replicate a.num_actions 0 }
  else if 0 < a.initialisation then
    Except.ok { a with q_values := List.replicate a.num_actions a.initialisation,
                       action_counts := List.replicate a.num_actions 0 }
  else
    Except.error "Unrecognised initialisation"

/-- `EpsilonGreedy.__init__`: store the configuration, read
`num_actions` from `env.bandits[0].k` (an `IndexError` when the testbed has
no runs), and call `reset`. -/
def mkEpsilonGreedy (env : KArmedTestbed) (epsilon : ℚ) (max_steps : ℕ)
    (initialisation : ℚ) (use_weighted_average : Bool) (alpha : ℚ) :
    Except String EpsilonGreedy :=
  match env.bandits with
  | [] => Except.error "IndexError: list index out of range"
  | b :: _ =>
    EpsilonGreedy.reset
      { env := env, epsilon := epsilon, max_steps := max_steps,
        initialisation := initialisation,
        use_weighted_average := use_weighted_average, alpha := alpha,
        num_actions := b.k, q_values := List.replicate b.k 0,
        action_counts := List.replicate b.k 0 }

/-- Modelled from the spec: `argmax_ties_random` is imported from
`rl.utils.general`, which is not among the sources. Per the spec it finds
the maximum of `values`, collects all indices attaining it, and samples one
uniformly at random. -/
def argmax_ties_random (values : List ℚ) (rng : Rng) : ℕ × Rng :=
  let m := listMax values
  let ties := (List.range values.length).filter (fun i => values.getD i 0 = m)
  let u := draw rng
  (ties.getD (⌊u.1 * (ties.length : ℚ)⌋).toNat 0, u.2)

/-- `EpsilonGreedy.act`: with probability `epsilon` explore uniformly at
random, otherwise exploit via `argmax_ties_random` over `q_values`. -/
def EpsilonGreedy.act (a : EpsilonGreedy) (rng : Rng) : ℕ × Rng :=
  let u := draw rng
  if u.1 < a.epsilon then npRandint a.num_actions u.2
  else argmax_ties_random a.q_values u.2

/-- `EpsilonGreedy.simple_update`: increment `action_counts[action]`, then
move `q_values[action]` toward `reward` with step size
`1 / action_counts[action]`. -/
def EpsilonGreedy.simple_update (a : EpsilonGreedy) (action : ℕ) (reward : ℚ) :
    EpsilonGreedy :=
  let counts := a.action_counts.set action (a.action_counts.getD action 0 + 1)
  let step_size : ℚ := 1 / ((counts.getD action 0 : ℕ) : ℚ)
  let q := a.q_values.set action
    (a.q_values.getD action 0 + step_size * (reward - a.q_values.getD action 0))
  { a with action_counts := counts, q_values := q }

/-- `EpsilonGreedy.weighted_update`: move `q_values[action]` toward `reward`
with constant step size `alpha`; `action_counts` is not touched. -/
def EpsilonGreedy.weighted_update (a : EpsilonGreedy) (action : ℕ) (reward : ℚ) :
    EpsilonGreedy :=
  let q := a.q_values.set action
    (a.q_values.getD action 0 + a.alpha * (reward - a.q_values.getD action 0))
  { a with q_values := q }

/-- The inner loop of `train`: `fuel` remaining steps against one bandit;
returns the reward trajectory, the optimal-action indicators, the updated
agent and the advanced stream. -/
def runLoop (b : Bandit) : ℕ → EpsilonGreedy → Rng →
    Except String (List ℚ × List Bool × EpsilonGreedy × Rng)
  | 0, a, rng => Except.ok ([], [], a, rng)
  | fuel + 1, a, rng =>
    let ar := a.act rng
    match b.step (ar.1 : ℤ) ar.2 with
    | none => Except.error "IndexError: index out of bounds"
    | some rw =>
      let a' := if a.use_weighted_average
                then a.weighted_update ar.1 rw.1
                else a.simple_update ar.1 rw.1
      match runLoop b fuel a' rw.2 with
      | Except.error e => Except.error e
      | Except.ok res =>
        Except.ok (rw.1 :: res.1, decide (ar.1 = b.best_action) :: res.2.1,
                   res.2.2.1, res.2.2.2)

/-- The outer loop of `train` over the testbed's bandits, in order. -/
def trainRuns (a : EpsilonGreedy) (rng : Rng) :
    List Bandit → Except String (List (List ℚ × List Bool) × EpsilonGreedy × Rng)
  | [] => Except.ok ([], a, rng)
  | b :: bs =>
    match a.reset with
    | Except.error e => Except.error e
    | Except.ok a1 =>
      match runLoop b a1.max_steps a1 rng with
      | Except.error e => Except.error e
      | Except.ok res =>
        match trainRuns res.2.2.1 res.2.2.2 bs with
        | Except.error e => Except.error e
        | Except.ok rest =>
          Except.ok ((res.1, res.2.1) :: rest.1, rest.2.1, rest.2.2)

/-- `EpsilonGreedy.train`: for every run, reset, interact for `max_steps`
steps, and record the reward / optimality trajectories, keyed in the
testbed's run order. -/
def EpsilonGreedy.train (a : EpsilonGreedy) (rng : Rng) :
    Except String (List (List ℚ × List Bool) × EpsilonGreedy × Rng) :=
  trainRuns a rng a.env.bandits

/-- Iterated `simple_update` on a fixed action, one call per listed reward. -/
def simpleUpdates (action : ℕ) : EpsilonGreedy → List ℚ → EpsilonGreedy
  | a, [] => a
  | a, r :: rs => simpleUpdates action (a.simple_update action r) rs

/-! ## Concrete fixtures for witnesses -/

/-- A concrete two-armed bandit used by closed witness statements. -/
def bFix : Bandit := { k := 2, bandit_std := 1, q_star := [5, 7], best_action := 1 }

/-- A concrete one-run testbed used by closed witness statements. -/
def envFix : KArmedTestbed :=
  { num_runs := 1, k := 2, k_mean := 0, k_std := 1, bandit_std := 1, bandits := [bFix] }

/-- A concrete agent over `envFix` used by closed witness statements. -/
def agentFix : EpsilonGreedy :=
  { env := envFix, epsilon := 0, max_steps := 10, initialisation := 0,
    use_weighted_average := false, alpha := 1/2, num_actions := 2,
    q_values := [0, 0], action_counts := [0, 0] }

/-- A fixture agent whose step budget is zero, for closed witness
statements about `train`. -/
def agentFix0 : EpsilonGreedy := { agentFix with max_steps := 0 }

/-- The contract of `np.random.random()`: every pending draw lies in `[0,1)`. -/
def AllOk (rng : Rng) : Prop := ∀ x ∈ rng, 0 ≤ x ∧ x < 1

/-- A concrete testbed generated from the draws `[0, 0]`, for the C7
witness. -/
def envC7 : KArmedTestbed := (mkKArmedTestbed 1 2 0 1 1 [0, 0]).1

/-- The agent the constructor returns on `envC7` with a zero step budget,
for the C7 witness. -/
def aC7 : EpsilonGreedy :=
  { env := envC7, epsilon := 0, max_steps := 0, initialisation := 0,
    use_weighted_average := false, alpha := 1/2, num_actions := 2,
    q_values := List.replicate 2 0, action_counts := List.replicate 2 0 }

/-! ## Reachable agent states and their invariants -/

/-- The length half of the spec's AgentState invariant. -/
def LenInv (a : EpsilonGreedy) : Prop :=
  a.q_values.length = a.num_actions ∧ a.action_counts.length = a.num_actions

/-- The value half of the spec's AgentState invariant: a never-selected
action still carries the initial estimate. -/
def ValInv (a : EpsilonGreedy) : Prop :=
  ∀ i < a.num_actions,
    a.action_counts.getD i 0 = 0 → a.q_values.getD i 0 = a.initialisation

/-- Agent states reachable from a successful construction by the agent's
operations (`reset`, `simple_update`, `weighted_update`, `train`; `act`
does not change the state). -/
inductive Reachable : EpsilonGreedy → Prop
  | mk_ok (env : KArmedTestbed) (eps : ℚ) (ms : ℕ) (init : ℚ) (uwa : Bool)
      (al : ℚ) (a : EpsilonGreedy)
      (h : mkEpsilonGreedy env eps ms init uwa al = Except.ok a) : Reachable a
  | reset (a a' : EpsilonGreedy) (h : Reachable a)
      (h2 : a.reset = Except.ok a') : Reachable a'
  | simple (a : EpsilonGreedy) (action : ℕ) (reward : ℚ) (h : Reachable a) :
      Reachable (a.simple_update action reward)
  | weighted (a : EpsilonGreedy) (action : ℕ) (reward : ℚ) (h : Reachable a) :
      Reachable (a.weighted_update action reward)
  | train (a : EpsilonGreedy) (rng : Rng)
      (out : List (List ℚ × List Bool) × EpsilonGreedy × Rng) (h : Reachable a)
      (h2 : a.train rng = Except.ok out) : Reachable out.2.1

/-- Agent states reachable without any weighted update: as `Reachable` but
without the `weighted_update` operation, and `train` only for agents
configured with the sample-average rule. -/
inductive ReachableSA : EpsilonGreedy → Prop
  | mk_ok (env : KArmedTestbed) (eps : ℚ) (ms : ℕ) (init : ℚ) (uwa : Bool)
      (al : ℚ) (a : EpsilonGreedy)
      (h : mkEpsilonGreedy env eps ms init uwa al = Except.ok a) : ReachableSA a
  | reset (a a' : EpsilonGreedy) (h : ReachableSA a)
      (h2 : a.reset = Except.ok a') : ReachableSA a'
  | simple (a : EpsilonGreedy) (action : ℕ) (reward : ℚ) (h : ReachableSA a) :
      ReachableSA (a.simple_update action reward)
  | train (a : EpsilonGreedy) (rng : Rng)
      (out : List (List ℚ × List Bool) × EpsilonGreedy × Rng) (h : ReachableSA a)
      (huwa : a.use_weighted_average = false)
      (h2 : a.train rng = Except.ok out) : ReachableSA out.2.1

/-! ## Basic list lemmas -/

lemma getD_set_self {l : List ℚ} {i : ℕ} (v : ℚ) (h : i < l.length) :
    (l.set i v).getD i 0 = v := by
  simp [List.getD_eq_getElem?_getD, List.getElem?_set_eq_of_lt v h]

lemma getD_set_ne {l : List ℚ} {i j : ℕ} (v : ℚ) (h : i ≠ j) :
    (l.set i v).getD j 0 = l.getD j 0 := by
  simp [List.getD_eq_getElem?_getD, List.getElem?_set_ne h]

lemma getDN_set_self {l : List ℕ} {i : ℕ} (v : ℕ) (h : i < l.length) :
    (l.set i v).getD i 0 = v := by
  simp [List.getD_eq_getElem?_getD, List.getElem?_set_eq_of_lt v h]

lemma getDN_set_ne {l : List ℕ} {i j : ℕ} (v : ℕ) (h : i ≠ j) :
    (l.set i v).getD j 0 = l.getD j 0 := by
  simp [List.getD_eq_getElem?_getD, List.getElem?_set_ne h]

lemma getD_replicate {n i : ℕ} (v : ℚ) (h : i < n) :
    (List.replicate n v).getD i 0 = v := by
  simp [List.getD_eq_getElem?_getD, List.getElem?_replicate, h]

lemma getDN_replicate {n i : ℕ} (v : ℕ) (h : i < n) :
    (List.replicate n v).getD i 0 = v := by
  simp [List.getD_eq_getElem?_getD, List.getElem?_replicate, h]

/-! ## `listMax` and `argmaxFirst` -/

lemma le_foldl_max (xs : List ℚ) (b : ℚ) : b ≤ xs.foldl max b := by
  induction xs generalizing b with
  | nil => simp
  | cons x xs ih => exact le_trans (le_max_left b x) (ih (max b x))

lemma mem_le_foldl_max (xs : List ℚ) (b x : ℚ) (hx : x ∈ xs) :
    x ≤ xs.foldl max b := by
  induction xs generalizing b with
  | nil => cases hx
  | cons y ys ih =>
    rcases List.mem_cons.mp hx with h | h
    · subst h
      exact le_trans (le_max_right b x) (le_foldl_max ys (max b x))
    · exact ih (max b y) h

lemma foldl_max_mem (xs : List ℚ) (b : ℚ) :
    xs.foldl max b = b ∨ xs.foldl max b ∈ xs := by
  induction xs generalizing b with
  | nil => simp
  | cons x xs ih =>
    rcases ih (max b x) with h | h
    · rcases max_choice b x with hb | hx
      · left; simp only [List.foldl_cons]; rw [h, hb]
      · right; simp only [List.foldl_cons]; rw [h, hx]; exact List.mem_cons_self x xs
    · right; exact List.mem_cons_of_mem x h

lemma le_listMax {l : List ℚ} {x : ℚ} (hx : x ∈ l) : x ≤ listMax l := by
  cases l with
  | nil => cases hx
  | cons h t =>
    rcases List.mem_cons.mp hx with h1 | h1
    · subst h1; exact le_foldl_max t x
    · exact mem_le_foldl_max t h x h1

lemma listMax_mem {l : List ℚ} (hl : l ≠ []) : listMax l ∈ l := by
  cases l with
  | nil => exact absurd rfl hl
  | cons h t =>
    rcases foldl_max_mem t h with h1 | h1
    · rw [listMax]; simp only [List.tail_cons, List.headD_cons]
      rw [h1]; exact List.mem_cons_self h t
    · exact List.mem_cons_of_mem h h1

lemma getD_lt_indexOf_ne (l : List ℚ) (x : ℚ) (i : ℕ) (h : i < l.indexOf x) :
    l.getD i 0 ≠ x := by
  induction l generalizing i with
  | nil => simp [List.indexOf] at h
  | cons y ys ih =>
    by_cases hyx : y = x
    · rw [List.indexOf_cons_eq ys hyx] at h; omega
    · rw [List.indexOf_cons_ne ys hyx] at h
      cases i with
      | zero => simpa using hyx
      | succ j =>
        have := ih j (Nat.lt_of_succ_lt_succ h)
        simpa using this

lemma argmaxFirst_lt_length {l : List ℚ} (hl : l ≠ []) :
    argmaxFirst l < l.length :=
  List.indexOf_lt_length.mpr (listMax_mem hl)

lemma getD_argmaxFirst {l : List ℚ} (hl : l ≠ []) :
    l.getD (argmaxFirst l) 0 = listMax l := by
  have h := List.indexOf_lt_length.mpr (listMax_mem hl)
  rw [argmaxFirst, List.getD_eq_getElem?_getD, List.getElem?_eq_getElem h]
  simp [List.getElem_indexOf h]

lemma argmaxFirst_max {l : List ℚ} (hl : l ≠ []) {i : ℕ} (hi : i < l.length) :
    l.getD i 0 ≤ l.getD (argmaxFirst l) 0 := by
  rw [getD_argmaxFirst hl]
  refine le_listMax ?_
  rw [List.getD_eq_getElem?_getD, List.getElem?_eq_getElem hi]
  exact List.getElem_mem hi

lemma argmaxFirst_first {l : List ℚ} (hl : l ≠ []) {i : ℕ}
    (hi : i < argmaxFirst l) :
    l.getD i 0 < l.getD (argmaxFirst l) 0 := by
  have hlen : i < l.length := lt_trans hi (argmaxFirst_lt_length hl)
  have hne : l.getD i 0 ≠ listMax l := getD_lt_indexOf_ne l (listMax l) i hi
  have hle := argmaxFirst_max hl hlen
  rw [getD_argmaxFirst hl] at hle ⊢
  exact lt_of_le_of_ne hle hne

/-! ## Unfolding lemmas for the agent operations -/

lemma reset_ok {a a' : EpsilonGreedy} (h : a.reset = Except.ok a') :
    a'.action_counts = List.replicate a.num_actions 0
    ∧ a'.q_values = List.replicate a.num_actions a.initialisation
    ∧ a'.env = a.env ∧ a'.epsilon = a.epsilon ∧ a'.max_steps = a.max_steps
    ∧ a'.initialisation = a.initialisation
    ∧ a'.use_weighted_average = a.use_weighted_average
    ∧ a'.alpha = a.alpha ∧ a'.num_actions = a.num_actions
    ∧ 0 ≤ a.initialisation := by
  rw [EpsilonGreedy.reset] at h
  by_cases h0 : a.initialisation = 0
  · rw [if_pos h0] at h
    cases h
    refine ⟨rfl, by rw [h0], rfl, rfl, rfl, rfl, rfl, rfl, rfl, le_of_eq h0.symm⟩
  · rw [if_neg h0] at h
    by_cases h1 : 0 < a.initialisation
    · rw [if_pos h1] at h
      cases h
      exact ⟨rfl, rfl, rfl, rfl, rfl, rfl, rfl, rfl, rfl, le_of_lt h1⟩
    · rw [if_neg h1] at h
      cases h

lemma reset_error {a : EpsilonGreedy} (h : a.initialisation < 0) :
    a.reset = Except.error "Unrecognised initialisation" := by
  rw [EpsilonGreedy.reset, if_neg (by linarith), if_neg (by linarith)]

lemma simple_update_fields (a : EpsilonGreedy) (action : ℕ) (reward : ℚ) :
    (a.simple_update action reward).env = a.env
    ∧ (a.simple_update action reward).epsilon = a.epsilon
    ∧ (a.simple_update action reward).max_steps = a.max_steps
    ∧ (a.simple_update action reward).initialisation = a.initialisation
    ∧ (a.simple_update action reward).use_weighted_average = a.use_weighted_average
    ∧ (a.simple_update action reward).alpha = a.alpha
    ∧ (a.simple_update action reward).num_actions = a.num_actions :=
  ⟨rfl, rfl, rfl, rfl, rfl, rfl, rfl⟩

lemma weighted_update_fields (a : EpsilonGreedy) (action : ℕ) (reward : ℚ) :
    (a.weighted_update action reward).env = a.env
    ∧ (a.weighted_update action reward).epsilon = a.epsilon
    ∧ (a.weighted_update action reward).max_steps = a.max_steps
    ∧ (a.weighted_update action reward).initialisation = a.initialisation
    ∧ (a.weighted_update action reward).use_weighted_average = a.use_weighted_average
    ∧ (a.weighted_update action reward).alpha = a.alpha
    ∧ (a.weighted_update action reward).num_actions = a.num_actions
    ∧ (a.weighted_update action reward).action_counts = a.action_counts :=
  ⟨rfl, rfl, rfl, rfl, rfl, rfl, rfl, rfl⟩

lemma simple_update_lengths (a : EpsilonGreedy) (action : ℕ) (reward : ℚ) :
    (a.simple_update action reward).q_values.length = a.q_values.length
    ∧ (a.simple_update action reward).action_counts.length = a.action_counts.length := by
  constructor
  · exact List.length_set ..
  · exact List.length_set ..

lemma weighted_update_lengths (a : EpsilonGreedy) (action : ℕ) (reward : ℚ) :
    (a.weighted_update action reward).q_values.length = a.q_values.length
    ∧ (a.weighted_update action reward).action_counts.length = a.action_counts.length :=
  ⟨List.length_set .., rfl⟩

lemma simple_update_counts_getD {a : EpsilonGreedy} {action : ℕ} (reward : ℚ)
    (hc : action < a.action_counts.length) :
    (a.simple_update action reward).action_counts.getD action 0
      = a.action_counts.getD action 0 + 1 := by
  show ((a.action_counts.set action (a.action_counts.getD action 0 + 1)).getD action 0) = _
  exact getDN_set_self _ (by simpa using hc)

lemma simple_update_q_getD {a : EpsilonGreedy} {action : ℕ} (reward : ℚ)
    (hq : action < a.q_values.length) (hc : action < a.action_counts.length) :
    (a.simple_update action reward).q_values.getD action 0
      = a.q_values.getD action 0 +
          (1 / (((a.action_counts.getD action 0 : ℕ) : ℚ) + 1)) *
            (reward - a.q_values.getD action 0) := by
  have hcount : ((a.action_counts.set action (a.action_counts.getD action 0 + 1)).getD action 0)
      = a.action_counts.getD action 0 + 1 := getDN_set_self _ (by simpa using hc)
  show ((a.q_values.set action _).getD action 0) = _
  rw [getD_set_self _ (by simpa using hq), hcount]
  push_cast
  ring_nf

lemma weighted_update_q_getD {a : EpsilonGreedy} {action : ℕ} (reward : ℚ)
    (hq : action < a.q_values.length) :
    (a.weighted_update action reward).q_values.getD action 0
      = a.q_values.getD action 0 +
          a.alpha * (reward - a.q_values.getD action 0) := by
  show ((a.q_values.set action _).getD action 0) = _
  exact getD_set_self _ (by simpa using hq)

/-! ## Sample-average mean lemma -/

lemma simpleUpdates_formula (action : ℕ) (rs : List ℚ) :
    ∀ (a : EpsilonGreedy) (n : ℕ) (v : ℚ),
      action < a.q_values.length → action < a.action_counts.length →
      a.action_counts.getD action 0 = n → a.q_values.getD action 0 = v →
      0 < n →
      (simpleUpdates action a rs).action_counts.getD action 0 = n + rs.length
      ∧ (simpleUpdates action a rs).q_values.getD action 0
          = ((n : ℚ) * v + rs.sum) / ((n : ℚ) + (rs.length : ℚ)) := by
  induction rs with
  | nil =>
    intro a n v hq hc hn hv hpos
    refine ⟨by simpa [simpleUpdates] using hn, ?_⟩
    have hne : ((n : ℚ) + (0:ℚ)) ≠ 0 := by
      have : (0:ℚ) < (n : ℚ) := by exact_mod_cast hpos
      linarith
    simp only [simpleUpdates, List.sum_nil, List.length_nil, Nat.cast_zero, add_zero]
    rw [hv]
    field_simp
  | cons r rs ih =>
    intro a n v hq hc hn hv hpos
    have hq1 : action < (a.simple_update action r).q_values.length := by
      rw [(simple_update_lengths a action r).1]; exact hq
    have hc1 : action < (a.simple_update action r).action_counts.length := by
      rw [(simple_update_lengths a action r).2]; exact hc
    have hcnt : (a.simple_update action r).action_counts.getD action 0 = n + 1 := by
      rw [simple_update_counts_getD r hc, hn]
    have hval : (a.simple_update action r).q_values.getD action 0
        = v + (1 / ((n : ℚ) + 1)) * (r - v) := by
      rw [simple_update_q_getD r hq hc, hn, hv]
    obtain ⟨h1, h2⟩ := ih (a.simple_update action r) (n + 1)
      (v + (1 / ((n : ℚ) + 1)) * (r - v)) hq1 hc1 hcnt hval (Nat.succ_pos n)
    constructor
    · show (simpleUpdates action (a.simple_update action r) rs).action_counts.getD action 0
        = n + (r :: rs).length
      rw [h1, List.length_cons]; omega
    · show (simpleUpdates action (a.simple_update action r) rs).q_values.getD action 0
        = ((n : ℚ) * v + (r :: rs).sum) / ((n : ℚ) + ((r :: rs).length : ℚ))
      rw [h2, List.sum_cons, List.length_cons]
      have hne : ((n : ℚ) + 1) ≠ 0 := by positivity
      push_cast
      rw [div_eq_div_iff (by positivity) (by positivity)]
      field_simp
      ring

/-- C1: starting from a freshly reset state, n calls of `simple_update` on
the same action leave `estimated_values[action]` equal to the arithmetic
mean of the n rewards passed, and `selection_counts[action] = n`. -/
theorem C1_simple_update_mean (a0 a : EpsilonGreedy) (action : ℕ) (rs : List ℚ)
    (hreset : a0.reset = Except.ok a) (haction : action < a.num_actions)
    (hrs : rs ≠ []) :
    (simpleUpdates action a rs).q_values.getD action 0
        = rs.sum / (rs.length : ℚ)
    ∧ (simpleUpdates action a rs).action_counts.getD action 0 = rs.length := by
  obtain ⟨hcounts, hqv, -, -, -, -, -, -, hna, -⟩ := reset_ok hreset
  have hq : action < a.q_values.length := by
    rw [hqv, List.length_replicate, ← hna]; exact haction
  have hc : action < a.action_counts.length := by
    rw [hcounts, List.length_replicate, ← hna]; exact haction
  cases rs with
  | nil => exact absurd rfl hrs
  | cons r rest =>
    have hc0 : a.action_counts.getD action 0 = 0 := by
      rw [hcounts]; exact getDN_replicate 0 (by rwa [hna] at haction)
    have hq1 : action < (a.simple_update action r).q_values.length := by
      rw [(simple_update_lengths a action r).1]; exact hq
    have hc1 : action < (a.simple_update action r).action_counts.length := by
      rw [(simple_update_lengths a action r).2]; exact hc
    have hcnt : (a.simple_update action r).action_counts.getD action 0 = 1 := by
      rw [simple_update_counts_getD r hc, hc0]
    have hval : (a.simple_update action r).q_values.getD action 0 = r := by
      rw [simple_update_q_getD r hq hc, hc0]
      push_cast
      ring
    obtain ⟨h1, h2⟩ := simpleUpdates_formula action rest (a.simple_update action r)
      1 r hq1 hc1 hcnt hval Nat.one_pos
    constructor
    · show (simpleUpdates action (a.simple_update action r) rest).q_values.getD action 0
        = (r :: rest).sum / (((r :: rest).length : ℕ) : ℚ)
      rw [h2, List.sum_cons, List.length_cons]
      push_cast
      ring_nf
    · show (simpleUpdates action (a.simple_update action r) rest).action_counts.getD action 0
        = (r :: rest).length
      rw [h1, List.length_cons]; omega


/-- C1 witness: the spec's concrete scenario — `num_actions = 2`,
`initial_value = 0`, rewards `1.0` then `3.0` for action `0` give estimate
`2.0` and count `2`. -/
theorem C1_simple_update_mean_witness :
    (simpleUpdates 0 agentFix [1, 3]).q_values.getD 0 0 = 2
    ∧ (simpleUpdates 0 agentFix [1, 3]).action_counts.getD 0 0 = 2 := by
  have h := C1_simple_update_mean agentFix agentFix 0 [1, 3] rfl
    (by decide) (by decide)
  refine ⟨?_, h.2⟩
  rw [h.1]
  norm_num

/-- C8: `weighted_update` with `alpha = 1` sets `estimated_values[action]`
exactly to the reward; with `alpha = 1/2` from an estimate of `0`, a reward
of `4` yields `2` and a second reward of `4` yields `3`. -/
theorem C8_weighted_update_algebra :
    (∀ (a : EpsilonGreedy) (action : ℕ) (reward : ℚ),
        a.alpha = 1 → action < a.q_values.length →
        (a.weighted_update action reward).q_values.getD action 0 = reward)
    ∧ (∀ a : EpsilonGreedy,
        a.alpha = 1/2 → 0 < a.q_values.length → a.q_values.getD 0 0 = 0 →
        (a.weighted_update 0 4).q_values.getD 0 0 = 2
        ∧ ((a.weighted_update 0 4).weighted_update 0 4).q_values.getD 0 0 = 3) := by
  constructor
  · intro a action reward ha hq
    rw [weighted_update_q_getD reward hq, ha]
    ring
  · intro a ha hq h0
    have h1 : (a.weighted_update 0 4).q_values.getD 0 0 = 2 := by
      rw [weighted_update_q_getD 4 hq, h0, ha]
      norm_num
    refine ⟨h1, ?_⟩
    have hq1 : 0 < (a.weighted_update 0 4).q_values.length := by
      rw [(weighted_update_lengths a 0 4).1]; exact hq
    rw [weighted_update_q_getD 4 hq1, h1, (weighted_update_fields a 0 4).2.2.2.2.2.1, ha]
    norm_num

/-- C8 witness: the concrete scenarios evaluated on the fixture agent. -/
theorem C8_weighted_update_algebra_witness :
    ({ agentFix with alpha := 1 }.weighted_update 0 9).q_values.getD 0 0 = 9
    ∧ (agentFix.weighted_update 0 4).q_values.getD 0 0 = 2
    ∧ ((agentFix.weighted_update 0 4).weighted_update 0 4).q_values.getD 0 0 = 3 := by
  have h1 := C8_weighted_update_algebra.1 { agentFix with alpha := 1 } 0 9 rfl (by decide)
  have h2 := C8_weighted_update_algebra.2 agentFix rfl (by decide) (by decide)
  exact ⟨h1, h2.1, h2.2⟩

/-- C10: `weighted_update` never touches `selection_counts` and changes no
entry of `estimated_values` other than the updated action's; `simple_update`
likewise changes only the updated action's entry in both sequences. -/
theorem C10_update_frame (a : EpsilonGreedy) (action : ℕ) (reward : ℚ) :
    (a.weighted_update action reward).action_counts = a.action_counts
    ∧ (∀ i, i ≠ action →
        (a.weighted_update action reward).q_values.getD i 0 = a.q_values.getD i 0)
    ∧ (∀ i, i ≠ action →
        (a.simple_update action reward).q_values.getD i 0 = a.q_values.getD i 0
        ∧ (a.simple_update action reward).action_counts.getD i 0
            = a.action_counts.getD i 0) := by
  refine ⟨rfl, ?_, ?_⟩
  · intro i hi
    exact getD_set_ne _ (fun h => hi h.symm)
  · intro i hi
    exact ⟨getD_set_ne _ (fun h => hi h.symm), getDN_set_ne _ (fun h => hi h.symm)⟩

/-- C10 witness: frame conditions evaluated on the fixture agent at the
untouched index `1`. -/
theorem C10_update_frame_witness :
    (agentFix.weighted_update 0 4).action_counts = agentFix.action_counts
    ∧ (agentFix.weighted_update 0 4).q_values.getD 1 0 = agentFix.q_values.getD 1 0
    ∧ (agentFix.simple_update 0 4).q_values.getD 1 0 = agentFix.q_values.getD 1 0
    ∧ (agentFix.simple_update 0 4).action_counts.getD 1 0
        = agentFix.action_counts.getD 1 0 := by
  have h := C10_update_frame agentFix 0 4
  exact ⟨h.1, h.2.1 1 (by decide), (h.2.2 1 (by decide)).1, (h.2.2 1 (by decide)).2⟩

/-! ## Construction and reset -/

lemma reset_ok_of_nonneg {a : EpsilonGreedy} (h : 0 ≤ a.initialisation) :
    ∃ a', a.reset = Except.ok a' := by
  rw [EpsilonGreedy.reset]
  by_cases hz : a.initialisation = 0
  · rw [if_pos hz]; exact ⟨_, rfl⟩
  · rw [if_neg hz, if_pos (lt_of_le_of_ne h (Ne.symm hz))]; exact ⟨_, rfl⟩

/-- C9: a negative `initial_value` makes the agent constructor raise the
configuration error at construction; a nonnegative one succeeds, and
`reset` fills `estimated_values` with `initial_value` and zeroes
`selection_counts`. -/
theorem C9_initialisation_validation :
    (∀ (env : KArmedTestbed) (eps : ℚ) (ms : ℕ) (init : ℚ) (uwa : Bool) (al : ℚ),
        init < 0 → env.bandits ≠ [] →
        mkEpsilonGreedy env eps ms init uwa al
          = Except.error "Unrecognised initialisation")
    ∧ (∀ (env : KArmedTestbed) (eps : ℚ) (ms : ℕ) (init : ℚ) (uwa : Bool) (al : ℚ),
        0 ≤ init → env.bandits ≠ [] →
        ∃ a, mkEpsilonGreedy env eps ms init uwa al = Except.ok a
          ∧ a.q_values = List.replicate a.num_actions init
          ∧ a.action_counts = List.replicate a.num_actions 0)
    ∧ (∀ a : EpsilonGreedy, 0 ≤ a.initialisation →
        ∃ a', a.reset = Except.ok a'
          ∧ a'.q_values = List.replicate a'.num_actions a.initialisation
          ∧ a'.action_counts = List.replicate a'.num_actions 0) := by
  refine ⟨?_, ?_, ?_⟩
  · intro env eps ms init uwa al hinit henv
    cases hb : env.bandits with
    | nil => exact absurd hb henv
    | cons b bs =>
      rw [mkEpsilonGreedy, hb]
      exact reset_error hinit
  · intro env eps ms init uwa al hinit henv
    cases hb : env.bandits with
    | nil => exact absurd hb henv
    | cons b bs =>
      rw [mkEpsilonGreedy, hb]
      have hinit' : (0 : ℚ) ≤ (EpsilonGreedy.mk env eps ms init uwa al b.k
        (List.replicate b.k 0) (List.replicate b.k 0)).initialisation := hinit
      obtain ⟨a, ha⟩ := reset_ok_of_nonneg hinit'
      obtain ⟨hc, hq, -, -, -, -, -, -, hna, -⟩ := reset_ok ha
      exact ⟨a, ha, by rw [hq, hna], by rw [hc, hna]⟩
  · intro a hinit
    obtain ⟨a', ha⟩ := reset_ok_of_nonneg hinit
    obtain ⟨hc, hq, -, -, -, -, -, -, hna, -⟩ := reset_ok ha
    exact ⟨a', ha, by rw [hq, hna], by rw [hc, hna]⟩

/-- C9 witness: a negative `initial_value` is rejected on the fixture
testbed, a positive one is accepted, and `reset` restores the fixture
agent's state. -/
theorem C9_initialisation_validation_witness :
    mkEpsilonGreedy envFix 0 10 (-1) false (1/2)
      = Except.error "Unrecognised initialisation"
    ∧ (mkEpsilonGreedy envFix 0 10 5 false (1/2)).toOption.isSome = true
    ∧ (agentFix.reset).toOption.isSome = true := by
  refine ⟨C9_initialisation_validation.1 envFix 0 10 (-1) false (1/2)
    (by norm_num) (by decide), ?_, ?_⟩
  · obtain ⟨a, ha, -, -⟩ := C9_initialisation_validation.2.1 envFix 0 10 5 false (1/2)
      (by norm_num) (by decide)
    rw [ha]; rfl
  · obtain ⟨a', ha, -, -⟩ := C9_initialisation_validation.2.2 agentFix (le_refl 0)
    rw [ha]; rfl

/-! ## Bandit step indexing -/

/-- C3 counterexample: `-1` is outside `[0, K)` for the two-armed fixture
bandit, yet `step` does not fail — numpy's negative indexing silently reads
`q_star[K-1]` and a reward is returned. -/
theorem C3_counterexample :
    ((-1 : ℤ) < 0 ∨ (2 : ℤ) ≤ -1) ∧ bFix.step (-1) [0] = some (7, []) := by
  refine ⟨Or.inl (by decide), ?_⟩
  simp [Bandit.step, npGetInt, bFix, normalDraw]

/-- C3 amended: `step` fails with the out-of-range `IndexError` exactly for
`action < -K` or `action ≥ K`; for `action ∈ [-K, 0)` it silently returns a
reward drawn around `true_action_values[K + action]` (Python negative
indexing). -/
theorem C3_step_range (b : Bandit) (action : ℤ) (rng : Rng)
    (hk : b.q_star.length = b.k) :
    ((b.step action rng).isSome = true
        ↔ (-(b.k : ℤ) ≤ action ∧ action < (b.k : ℤ)))
    ∧ (-(b.k : ℤ) ≤ action → action < 0 →
        b.step action rng
          = some (normalDraw (b.q_star.getD (action + (b.k : ℤ)).toNat 0)
              b.bandit_std rng)) := by
  constructor
  · rw [Bandit.step, npGetInt, hk]
    by_cases h1 : 0 ≤ action ∧ action < (b.k : ℤ)
    · rw [if_pos h1]
      simp only [Option.isSome_some, true_iff]
      exact ⟨le_trans (by omega) h1.1, h1.2⟩
    · rw [if_neg h1]
      by_cases h2 : -(b.k : ℤ) ≤ action ∧ action < 0
      · rw [if_pos h2]
        simp only [Option.isSome_some, true_iff]
        exact ⟨h2.1, by omega⟩
      · rw [if_neg h2]
        simp only [Option.isSome_none, Bool.false_eq_true, false_iff]
        omega
  · intro hge hlt
    rw [Bandit.step, npGetInt, hk, if_neg (by omega), if_pos ⟨hge, hlt⟩]

/-- C3 amended witness: on the fixture bandit, `step` succeeds at `-1`
(returning the reward around `q_star[1] = 7`) and the success criterion is
exactly the amended range. -/
theorem C3_step_range_witness :
    (bFix.step (-1) [0]).isSome = true ∧ bFix.step (-1) [0] = some (7, []) := by
  have h := C3_step_range bFix (-1) [0] (by decide)
  refine ⟨h.1.mpr (by decide), ?_⟩
  rw [h.2 (by decide) (by decide)]
  simp [bFix, normalDraw]

/-! ## Action selection -/

lemma allOk_tail {rng : Rng} (h : ∀ x ∈ rng, 0 ≤ x ∧ x < 1) :
    ∀ x ∈ rng.tail, 0 ≤ x ∧ x < 1 :=
  fun x hx => h x (List.mem_of_mem_tail hx)

lemma headD_ok {rng : Rng} (h : ∀ x ∈ rng, 0 ≤ x ∧ x < 1) :
    0 ≤ rng.headD 0 ∧ rng.headD 0 < 1 := by
  cases rng with
  | nil => exact ⟨le_refl 0, by norm_num⟩
  | cons x xs => exact h x (List.mem_cons_self x xs)

lemma floor_mul_lt {u : ℚ} {n : ℕ} (_h0 : 0 ≤ u) (h1 : u < 1) (hn : 0 < n) :
    (⌊u * (n : ℚ)⌋).toNat < n := by
  have hnq : (1 : ℚ) ≤ (n : ℚ) := by exact_mod_cast hn
  have h2 : u * (n : ℚ) < (n : ℚ) := by nlinarith
  have h3 : ⌊u * (n : ℚ)⌋ < (n : ℤ) := Int.floor_lt.mpr (by exact_mod_cast h2)
  omega

lemma getD_mem_of_lt {l : List ℚ} {i : ℕ} (h : i < l.length) : l.getD i 0 ∈ l := by
  rw [List.getD_eq_getElem?_getD, List.getElem?_eq_getElem h]
  exact List.getElem_mem h

lemma getDN_mem_of_lt {l : List ℕ} {i : ℕ} (h : i < l.length) : l.getD i 0 ∈ l := by
  rw [List.getD_eq_getElem?_getD, List.getElem?_eq_getElem h]
  exact List.getElem_mem h

lemma getDN_lt_of_forall {ties : List ℕ} {pos L : ℕ}
    (h : ∀ x ∈ ties, x < L) (hL : 0 < L) : ties.getD pos 0 < L := by
  by_cases hpos : pos < ties.length
  · exact h _ (getDN_mem_of_lt hpos)
  · rw [List.getD_eq_getElem?_getD, List.getElem?_eq_none (by omega)]
    exact hL

lemma argmax_ties_random_lt {q : List ℚ} {rng : Rng} (hq : 0 < q.length) :
    (argmax_ties_random q rng).1 < q.length := by
  rw [argmax_ties_random]
  refine getDN_lt_of_forall ?_ hq
  intro x hx
  have := List.mem_filter.mp hx
  exact List.mem_range.mp this.1

lemma npRandint_lt {n : ℕ} {rng : Rng} (hn : 0 < n)
    (h : ∀ x ∈ rng, 0 ≤ x ∧ x < 1) : (npRandint n rng).1 < n := by
  rw [npRandint]
  exact floor_mul_lt (headD_ok h).1 (headD_ok h).2 hn

lemma act_lt {a : EpsilonGreedy} {rng : Rng} (h1 : 0 < a.num_actions)
    (h2 : a.q_values.length = a.num_actions)
    (h3 : ∀ x ∈ rng, 0 ≤ x ∧ x < 1) : (a.act rng).1 < a.num_actions := by
  rw [EpsilonGreedy.act]
  by_cases hc : (draw rng).1 < a.epsilon
  · rw [if_pos hc]
    exact npRandint_lt h1 (allOk_tail h3)
  · rw [if_neg hc]
    rw [← h2]
    exact argmax_ties_random_lt (by omega)

lemma argmax_ties_random_unique {q : List ℚ} {rng : Rng} {j : ℕ}
    (hj : j < q.length)
    (hmax : ∀ i < q.length, i ≠ j → q.getD i 0 < q.getD j 0)
    (h : ∀ x ∈ rng, 0 ≤ x ∧ x < 1) :
    (argmax_ties_random q rng).1 = j := by
  have hne : q ≠ [] := List.ne_nil_of_length_pos (by omega)
  have hjm : q.getD j 0 = listMax q := by
    refine le_antisymm (le_listMax (getD_mem_of_lt hj)) ?_
    have hmem : listMax q ∈ q := listMax_mem hne
    obtain ⟨i, hilen, hival⟩ := List.getElem_of_mem hmem
    have : q.getD i 0 = listMax q := by
      rw [List.getD_eq_getElem?_getD, List.getElem?_eq_getElem hilen, hival]
      rfl
    by_cases hij : i = j
    · rw [← this, hij]
    · rw [← this]
      exact le_of_lt (hmax i hilen hij)
  have hties : ((List.range q.length).filter
      (fun i => q.getD i 0 = listMax q)) = [j] →
      (argmax_ties_random q rng).1 = j := by
    intro ht
    rw [argmax_ties_random]
    simp only [ht, List.length_singleton, Nat.cast_one, mul_one]
    have hu := headD_ok h
    have : (⌊(draw rng).1⌋).toNat = 0 := by
      have : ⌊(draw rng).1⌋ = 0 := Int.floor_eq_zero_iff.mpr ⟨hu.1, hu.2⟩
      rw [this]; rfl
    rw [draw] at this ⊢
    rw [this]
    rfl
  refine hties ?_
  have hmem_iff : ∀ i, i ∈ (List.range q.length).filter
      (fun i => q.getD i 0 = listMax q) ↔ i = j := by
    intro i
    rw [List.mem_filter, List.mem_range]
    constructor
    · rintro ⟨hilen, hival⟩
      by_contra hij
      have := hmax i hilen hij
      rw [hjm] at this
      have h2 : q.getD i 0 = listMax q := by simpa using hival
      rw [h2] at this
      exact lt_irrefl _ this
    · rintro rfl
      exact ⟨hj, by simpa using hjm⟩
  have hnodup : ((List.range q.length).filter
      (fun i => q.getD i 0 = listMax q)).Nodup :=
    (List.nodup_range _).filter _
  cases hft : (List.range q.length).filter
      (fun i => q.getD i 0 = listMax q) with
  | nil =>
    exfalso
    have := (hmem_iff j).mpr rfl
    rw [hft] at this
    cases this
  | cons x xs =>
    have hx : x = j := by
      have := (hmem_iff x).mp (by rw [hft]; exact List.mem_cons_self x xs)
      exact this
    have hxs : xs = [] := by
      cases hxs : xs with
      | nil => rfl
      | cons y ys =>
        exfalso
        have hy : y = j := (hmem_iff y).mp
          (by rw [hft, hxs]; exact List.mem_cons_of_mem x (List.mem_cons_self y ys))
        have := hnodup
        rw [hft, hxs, hx, hy] at this
        simp at this
    rw [hx, hxs]

/-- C5: `act` always returns an index in `[0, num_actions)`; with
`epsilon = 0` and a unique strictly maximal estimate, `act` returns that
action's index for every admissible random draw. -/
theorem C5_act_in_range_and_greedy :
    (∀ (a : EpsilonGreedy) (rng : Rng),
        0 < a.num_actions → a.q_values.length = a.num_actions →
        (∀ x ∈ rng, 0 ≤ x ∧ x < 1) →
        (a.act rng).1 < a.num_actions)
    ∧ (∀ (a : EpsilonGreedy) (rng : Rng) (j : ℕ),
        a.epsilon = 0 → (∀ x ∈ rng, 0 ≤ x ∧ x < 1) →
        j < a.q_values.length →
        (∀ i < a.q_values.length, i ≠ j → a.q_values.getD i 0 < a.q_values.getD j 0) →
        (a.act rng).1 = j) := by
  constructor
  · intro a rng h1 h2 h3
    exact act_lt h1 h2 h3
  · intro a rng j heps h hj hmax
    rw [EpsilonGreedy.act, if_neg ?_]
    · exact argmax_ties_random_unique hj hmax (allOk_tail h)
    · rw [heps]
      exact not_lt.mpr (headD_ok h).1

/-- C5 witness: on the fixture agent with estimates `[5, 7]` and draws
`[0, 0]`, `act` returns the unique greedy index `1`, which is in range. -/
theorem C5_act_in_range_and_greedy_witness :
    (({ agentFix with q_values := [5, 7] }).act [0, 0]).1 < 2
    ∧ (({ agentFix with q_values := [5, 7] }).act [0, 0]).1 = 1 := by
  have hrng : ∀ x ∈ ([0, 0] : Rng), 0 ≤ x ∧ x < 1 := by
    intro x hx
    rcases List.mem_cons.mp hx with h | h
    · subst h; norm_num
    · rcases List.mem_cons.mp h with h2 | h2
      · subst h2; norm_num
      · cases h2
  have hmax : ∀ i < (({ agentFix with q_values := [5, 7] }).q_values).length,
      i ≠ 1 → (({ agentFix with q_values := [5, 7] }).q_values).getD i 0
        < (({ agentFix with q_values := [5, 7] }).q_values).getD 1 0 := by
    intro i hi hij
    have hi2 : i < 2 := hi
    interval_cases i
    · show (5 : ℚ) < 7
      norm_num
    · exact absurd rfl hij
  exact ⟨C5_act_in_range_and_greedy.1 { agentFix with q_values := [5, 7] } [0, 0]
      (by decide) (by decide) hrng,
    C5_act_in_range_and_greedy.2 { agentFix with q_values := [5, 7] } [0, 0] 1
      rfl hrng (by decide) hmax⟩

/-! ## Train preserves the environment -/

lemma normals_length (m s : ℚ) : ∀ (n : ℕ) (rng : Rng),
    (normals m s n rng).1.length = n := by
  intro n
  induction n with
  | zero => intro rng; rfl
  | succ n ih => intro rng; simp [normals, ih]

lemma apply_update_fields (a : EpsilonGreedy) (action : ℕ) (reward : ℚ) :
    ((if a.use_weighted_average then a.weighted_update action reward
      else a.simple_update action reward) : EpsilonGreedy).env = a.env
    ∧ ((if a.use_weighted_average then a.weighted_update action reward
      else a.simple_update action reward) : EpsilonGreedy).epsilon = a.epsilon
    ∧ ((if a.use_weighted_average then a.weighted_update action reward
      else a.simple_update action reward) : EpsilonGreedy).max_steps = a.max_steps
    ∧ ((if a.use_weighted_average then a.weighted_update action reward
      else a.simple_update action reward) : EpsilonGreedy).initialisation = a.initialisation
    ∧ ((if a.use_weighted_average then a.weighted_update action reward
      else a.simple_update action reward) : EpsilonGreedy).use_weighted_average = a.use_weighted_average
    ∧ ((if a.use_weighted_average then a.weighted_update action reward
      else a.simple_update action reward) : EpsilonGreedy).alpha = a.alpha
    ∧ ((if a.use_weighted_average then a.weighted_update action reward
      else a.simple_update action reward) : EpsilonGreedy).num_actions = a.num_actions
    ∧ ((if a.use_weighted_average then a.weighted_update action reward
      else a.simple_update action reward) : EpsilonGreedy).q_values.length = a.q_values.length
    ∧ ((if a.use_weighted_average then a.weighted_update action reward
      else a.simple_update action reward) : EpsilonGreedy).action_counts.length
        = a.action_counts.length := by
  by_cases h : a.use_weighted_average
  · rw [if_pos h]
    exact ⟨rfl, rfl, rfl, rfl, rfl, rfl, rfl, List.length_set .., rfl⟩
  · rw [if_neg h]
    exact ⟨rfl, rfl, rfl, rfl, rfl, rfl, rfl, List.length_set .., List.length_set ..⟩

lemma runLoop_pres : ∀ (fuel : ℕ) (b : Bandit) (a : EpsilonGreedy) (rng : Rng)
    (out : List ℚ × List Bool × EpsilonGreedy × Rng),
    runLoop b fuel a rng = Except.ok out →
    out.2.2.1.env = a.env ∧ out.2.2.1.epsilon = a.epsilon
    ∧ out.2.2.1.max_steps = a.max_steps
    ∧ out.2.2.1.initialisation = a.initialisation
    ∧ out.2.2.1.use_weighted_average = a.use_weighted_average
    ∧ out.2.2.1.alpha = a.alpha
    ∧ out.2.2.1.num_actions = a.num_actions
    ∧ out.2.2.1.q_values.length = a.q_values.length
    ∧ out.2.2.1.action_counts.length = a.action_counts.length := by
  intro fuel
  induction fuel with
  | zero =>
    intro b a rng out h
    rw [runLoop] at h
    cases h
    exact ⟨rfl, rfl, rfl, rfl, rfl, rfl, rfl, rfl, rfl⟩
  | succ n ih =>
    intro b a rng out h
    rw [runLoop] at h
    split at h
    · cases h
    · rename_i rw1 heq
      split at h
      · simp only [] at h
        split at h
        · cases h
        · rename_i res heq2
          cases h
          have h1 := ih b _ _ res heq2
          have hf := weighted_update_fields a (a.act rng).1 rw1.1
          have hl := weighted_update_lengths a (a.act rng).1 rw1.1
          refine ⟨?_, ?_, ?_, ?_, ?_, ?_, ?_, ?_, ?_⟩
          · rw [h1.1, hf.1]
          · rw [h1.2.1, hf.2.1]
          · rw [h1.2.2.1, hf.2.2.1]
          · rw [h1.2.2.2.1, hf.2.2.2.1]
          · rw [h1.2.2.2.2.1, hf.2.2.2.2.1]
          · rw [h1.2.2.2.2.2.1, hf.2.2.2.2.2.1]
          · rw [h1.2.2.2.2.2.2.1, hf.2.2.2.2.2.2.1]
          · rw [h1.2.2.2.2.2.2.2.1, hl.1]
          · rw [h1.2.2.2.2.2.2.2.2, hl.2]
      · simp only [] at h
        split at h
        · cases h
        · rename_i res heq2
          cases h
          have h1 := ih b _ _ res heq2
          have hf := simple_update_fields a (a.act rng).1 rw1.1
          have hl := simple_update_lengths a (a.act rng).1 rw1.1
          refine ⟨?_, ?_, ?_, ?_, ?_, ?_, ?_, ?_, ?_⟩
          · rw [h1.1, hf.1]
          · rw [h1.2.1, hf.2.1]
          · rw [h1.2.2.1, hf.2.2.1]
          · rw [h1.2.2.2.1, hf.2.2.2.1]
          · rw [h1.2.2.2.2.1, hf.2.2.2.2.1]
          · rw [h1.2.2.2.2.2.1, hf.2.2.2.2.2.1]
          · rw [h1.2.2.2.2.2.2.1, hf.2.2.2.2.2.2]
          · rw [h1.2.2.2.2.2.2.2.1, hl.1]
          · rw [h1.2.2.2.2.2.2.2.2, hl.2]

lemma trainRuns_pres : ∀ (bs : List Bandit) (a : EpsilonGreedy) (rng : Rng)
    (out : List (List ℚ × List Bool) × EpsilonGreedy × Rng),
    trainRuns a rng bs = Except.ok out →
    out.2.1.env = a.env ∧ out.2.1.epsilon = a.epsilon
    ∧ out.2.1.max_steps = a.max_steps
    ∧ out.2.1.initialisation = a.initialisation
    ∧ out.2.1.use_weighted_average = a.use_weighted_average
    ∧ out.2.1.alpha = a.alpha
    ∧ out.2.1.num_actions = a.num_actions := by
  intro bs
  induction bs with
  | nil =>
    intro a rng out h
    rw [trainRuns] at h
    cases h
    exact ⟨rfl, rfl, rfl, rfl, rfl, rfl, rfl⟩
  | cons b bs ih =>
    intro a rng out h
    rw [trainRuns] at h
    split at h
    · cases h
    · rename_i a1 heq1
      split at h
      · cases h
      · rename_i res heq2
        split at h
        · cases h
        · rename_i rest heq3
          cases h
          obtain ⟨r1c, r1q, -, -, -, -, -, -, r1a, -⟩ := reset_ok heq1
          have h2 := runLoop_pres _ _ _ _ _ heq2
          have h3 := ih _ _ _ heq3
          obtain ⟨e1, e2, e3, e4, e5, e6, e7, -, -⟩ := reset_ok heq1
          refine ⟨?_, ?_, ?_, ?_, ?_, ?_, ?_⟩
          · rw [h3.1, h2.1, e3]
          · rw [h3.2.1, h2.2.1, e4]
          · rw [h3.2.2.1, h2.2.2.1, e5]
          · rw [h3.2.2.2.1, h2.2.2.2.1, e6]
          · rw [h3.2.2.2.2.1, h2.2.2.2.2.1, e7]
          · rw [h3.2.2.2.2.2.1, h2.2.2.2.2.2.1]
            exact (reset_ok heq1).2.2.2.2.2.2.2.1
          · rw [h3.2.2.2.2.2.2, h2.2.2.2.2.2.2.1]
            exact (reset_ok heq1).2.2.2.2.2.2.2.2.1


/-- C6: at construction `best_action` is the first-occurrence arg-max of
`true_action_values` (it is in range, no entry exceeds it, and every
earlier entry is strictly smaller), and a successful `train` leaves the
environment — hence every bandit's `true_action_values` and `best_action`
— unchanged. -/
theorem C6_best_action_stationary :
    (∀ (k : ℕ) (km ks bstd : ℚ) (rng : Rng), 0 < k →
      (mkBandit k km ks bstd rng).1.best_action
          < (mkBandit k km ks bstd rng).1.q_star.length
      ∧ (∀ i < (mkBandit k km ks bstd rng).1.q_star.length,
          (mkBandit k km ks bstd rng).1.q_star.getD i 0
            ≤ (mkBandit k km ks bstd rng).1.q_star.getD
                (mkBandit k km ks bstd rng).1.best_action 0)
      ∧ (∀ i < (mkBandit k km ks bstd rng).1.best_action,
          (mkBandit k km ks bstd rng).1.q_star.getD i 0
            < (mkBandit k km ks bstd rng).1.q_star.getD
                (mkBandit k km ks bstd rng).1.best_action 0))
    ∧ (∀ (a : EpsilonGreedy) (rng : Rng)
        (out : List (List ℚ × List Bool) × EpsilonGreedy × Rng),
        a.train rng = Except.ok out → out.2.1.env = a.env) := by
  constructor
  · intro k km ks bstd rng hk
    have hlen : (mkBandit k km ks bstd rng).1.q_star.length = k := by
      show (normals km ks k rng).1.length = k
      exact normals_length km ks k rng
    have hne : (mkBandit k km ks bstd rng).1.q_star ≠ [] :=
      List.ne_nil_of_length_pos (by omega)
    exact ⟨argmaxFirst_lt_length hne,
      fun i hi => argmaxFirst_max hne hi,
      fun i hi => argmaxFirst_first hne hi⟩
  · intro a rng out h
    exact (trainRuns_pres a.env.bandits a rng out h).1

/-- C6 witness: instantiated on a freshly generated two-armed bandit and a
zero-step training run on the fixture agent. -/
theorem C6_best_action_stationary_witness :
    (mkBandit 2 0 1 1 [0, 1]).1.best_action
        < (mkBandit 2 0 1 1 [0, 1]).1.q_star.length
    ∧ (([([], [])], agentFix0, ([] : Rng)) :
        List (List ℚ × List Bool) × EpsilonGreedy × Rng).2.1.env = agentFix0.env := by
  constructor
  · exact (C6_best_action_stationary.1 2 0 1 1 [0, 1] (by decide)).1
  · exact C6_best_action_stationary.2 agentFix0 [] ([([], [])], agentFix0, []) rfl

/-! ## Successful training runs -/


lemma allOk_tail2 {rng : Rng} (h : AllOk rng) : AllOk rng.tail :=
  fun x hx => h x (List.mem_of_mem_tail hx)

lemma act_rng (a : EpsilonGreedy) (rng : Rng) : (a.act rng).2 = rng.tail.tail := by
  rw [EpsilonGreedy.act]
  by_cases h : (draw rng).1 < a.epsilon
  · rw [if_pos h]; rfl
  · rw [if_neg h]; rfl

lemma stepN (b : Bandit) (action : ℕ) (rng : Rng) (h : action < b.q_star.length) :
    b.step (action : ℤ) rng
      = some (b.q_star.getD action 0 + b.bandit_std * rng.headD 0, rng.tail) := by
  rw [Bandit.step, npGetInt, if_pos ⟨Int.ofNat_nonneg action, by exact_mod_cast h⟩]
  simp [normalDraw]

lemma runLoop_succ_eq (b : Bandit) (n : ℕ) (a : EpsilonGreedy) (rng : Rng)
    (rw1 : ℚ × Rng)
    (hstep : b.step ((a.act rng).1 : ℤ) (a.act rng).2 = some rw1) :
    runLoop b (n + 1) a rng =
      match runLoop b n (if a.use_weighted_average
          then a.weighted_update (a.act rng).1 rw1.1
          else a.simple_update (a.act rng).1 rw1.1) rw1.2 with
      | Except.error e => Except.error e
      | Except.ok res => Except.ok (rw1.1 :: res.1,
          decide ((a.act rng).1 = b.best_action) :: res.2.1,
          res.2.2.1, res.2.2.2) := by
  rw [runLoop]
  simp only [hstep]

lemma runLoop_ok : ∀ (fuel : ℕ) (b : Bandit) (a : EpsilonGreedy) (rng : Rng),
    AllOk rng → 0 < a.num_actions → a.q_values.length = a.num_actions →
    b.q_star.length = a.num_actions →
    ∃ out : List ℚ × List Bool × EpsilonGreedy × Rng,
      runLoop b fuel a rng = Except.ok out
      ∧ out.1.length = fuel ∧ out.2.1.length = fuel ∧ AllOk out.2.2.2 := by
  intro fuel
  induction fuel with
  | zero =>
    intro b a rng hrng h1 h2 h3
    exact ⟨([], [], a, rng), by rw [runLoop], rfl, rfl, hrng⟩
  | succ n ih =>
    intro b a rng hrng h1 h2 h3
    have haction : (a.act rng).1 < a.num_actions := act_lt h1 h2 hrng
    have hrng2 : (a.act rng).2 = rng.tail.tail := act_rng a rng
    have hstep : b.step ((a.act rng).1 : ℤ) (a.act rng).2
        = some (b.q_star.getD (a.act rng).1 0
            + b.bandit_std * (a.act rng).2.headD 0, (a.act rng).2.tail) :=
      stepN b (a.act rng).1 (a.act rng).2 (by omega)
    have hfields := apply_update_fields a (a.act rng).1
      (b.q_star.getD (a.act rng).1 0 + b.bandit_std * (a.act rng).2.headD 0)
    have hok3 : AllOk (a.act rng).2.tail := by
      rw [hrng2]
      exact allOk_tail2 (allOk_tail2 (allOk_tail2 hrng))
    obtain ⟨out', hloop, hl1, hl2, hallok⟩ := ih b
      (if a.use_weighted_average
        then a.weighted_update (a.act rng).1
          (b.q_star.getD (a.act rng).1 0 + b.bandit_std * (a.act rng).2.headD 0)
        else a.simple_update (a.act rng).1
          (b.q_star.getD (a.act rng).1 0 + b.bandit_std * (a.act rng).2.headD 0))
      (a.act rng).2.tail hok3
      (by rw [hfields.2.2.2.2.2.2.1]; exact h1)
      (by rw [hfields.2.2.2.2.2.2.2.1, hfields.2.2.2.2.2.2.1, h2])
      (by rw [hfields.2.2.2.2.2.2.1]; exact h3)
    refine ⟨((b.q_star.getD (a.act rng).1 0
        + b.bandit_std * (a.act rng).2.headD 0) :: out'.1,
        decide ((a.act rng).1 = b.best_action) :: out'.2.1,
        out'.2.2.1, out'.2.2.2), ?_, ?_, ?_, hallok⟩
    · rw [runLoop_succ_eq b n a rng _ hstep]
      simp only [hloop]
    · simp [hl1]
    · simp [hl2]

lemma trainRuns_ok : ∀ (bs : List Bandit) (a : EpsilonGreedy) (rng : Rng),
    AllOk rng → 0 < a.num_actions → 0 ≤ a.initialisation →
    (∀ b ∈ bs, b.q_star.length = a.num_actions) →
    ∃ out : List (List ℚ × List Bool) × EpsilonGreedy × Rng,
      trainRuns a rng bs = Except.ok out
      ∧ out.1.length = bs.length
      ∧ (∀ p ∈ out.1, p.1.length = a.max_steps ∧ p.2.length = a.max_steps)
      ∧ AllOk out.2.2 := by
  intro bs
  induction bs with
  | nil =>
    intro a rng hrng h1 h2 h3
    refine ⟨([], a, rng), by rw [trainRuns], rfl, ?_, hrng⟩
    intro p hp
    cases hp
  | cons b bs ih =>
    intro a rng hrng h1 h2 h3
    obtain ⟨a1, hreset⟩ := reset_ok_of_nonneg h2
    obtain ⟨r1, r2, r3, r4, r5, r6, r7, r8, r9, -⟩ := reset_ok hreset
    obtain ⟨out1, hloop, hs1, hs2, hok1⟩ := runLoop_ok a1.max_steps b a1 rng hrng
      (by rw [r9]; exact h1)
      (by rw [r2, List.length_replicate, r9])
      (by rw [r9]; exact h3 b (List.mem_cons_self b bs))
    have hpres := runLoop_pres a1.max_steps b a1 rng out1 hloop
    obtain ⟨rest, hrest, ht1, ht2, hok2⟩ := ih out1.2.2.1 out1.2.2.2 hok1
      (by rw [hpres.2.2.2.2.2.2.1, r9]; exact h1)
      (by rw [hpres.2.2.2.1, r6]; exact h2)
      (by
        intro b' hb'
        rw [hpres.2.2.2.2.2.2.1, r9]
        exact h3 b' (List.mem_cons_of_mem b hb'))
    refine ⟨((out1.1, out1.2.1) :: rest.1, rest.2.1, rest.2.2), ?_, ?_, ?_, hok2⟩
    · rw [trainRuns]
      simp only [hreset, hloop, hrest]
    · simp [ht1]
    · intro p hp
      rcases List.mem_cons.mp hp with h | h
      · subst h
        constructor
        · rw [hs1, r5]
        · rw [hs2, r5]
      · have hms : out1.2.2.1.max_steps = a.max_steps := by
          rw [hpres.2.2.1, r5]
        obtain ⟨p1, p2⟩ := ht2 p h
        exact ⟨by rw [p1, hms], by rw [p2, hms]⟩

lemma mkBandits_spec (k : ℕ) (km ks bstd : ℚ) : ∀ (n : ℕ) (rng : Rng),
    (mkBandits k km ks bstd n rng).1.length = n
    ∧ ∀ b ∈ (mkBandits k km ks bstd n rng).1, b.k = k ∧ b.q_star.length = k := by
  intro n
  induction n with
  | zero =>
    intro rng
    refine ⟨rfl, ?_⟩
    intro b hb
    cases hb
  | succ n ih =>
    intro rng
    constructor
    · simp [mkBandits, (ih _).1]
    · intro b hb
      rw [mkBandits] at hb
      rcases List.mem_cons.mp hb with h | h
      · subst h
        exact ⟨rfl, normals_length km ks k rng⟩
      · exact (ih _).2 b h

lemma mk_ok_facts {env : KArmedTestbed} {eps : ℚ} {ms : ℕ} {init : ℚ} {uwa : Bool}
    {al : ℚ} {a : EpsilonGreedy}
    (h : mkEpsilonGreedy env eps ms init uwa al = Except.ok a) :
    a.env = env ∧ a.epsilon = eps ∧ a.max_steps = ms ∧ a.initialisation = init
    ∧ a.use_weighted_average = uwa ∧ a.alpha = al ∧ 0 ≤ init
    ∧ ∃ b bs', env.bandits = b :: bs' ∧ a.num_actions = b.k := by
  cases hb : env.bandits with
  | nil =>
    rw [mkEpsilonGreedy, hb] at h
    cases h
  | cons b bs =>
    rw [mkEpsilonGreedy, hb] at h
    obtain ⟨-, -, e1, e2, e3, e4, e5, e6, e7, e8⟩ := reset_ok h
    exact ⟨e1, e2, e3, e4, e5, e6, e8, b, bs, rfl, e7⟩

/-- C7: on a testbed generated with `num_runs` runs, a successfully
constructed agent's `train` produces one trajectory pair per run — exactly
`num_runs` columns — each column holding `max_steps` rewards and
`max_steps` optimality indicators. -/
theorem C7_train_shape (nr k : ℕ) (km ks bstd : ℚ) (rng0 : Rng)
    (eps : ℚ) (ms : ℕ) (init : ℚ) (uwa : Bool) (al : ℚ)
    (a : EpsilonGreedy) (rng : Rng) (hk : 0 < k)
    (ha : mkEpsilonGreedy (mkKArmedTestbed nr k km ks bstd rng0).1 eps ms init uwa al
        = Except.ok a)
    (hrng : AllOk rng) :
    ∃ out : List (List ℚ × List Bool) × EpsilonGreedy × Rng,
      a.train rng = Except.ok out
      ∧ out.1.length = nr
      ∧ ∀ p ∈ out.1, p.1.length = ms ∧ p.2.length = ms := by
  obtain ⟨henv, -, hms, hinit, -, -, hpos, b, bs', hbandits, hna⟩ := mk_ok_facts ha
  have hbl : (mkKArmedTestbed nr k km ks bstd rng0).1.bandits
      = (mkBandits k km ks bstd nr rng0).1 := rfl
  have hspec := mkBandits_spec k km ks bstd nr rng0
  have hbk : b.k = k := by
    refine (hspec.2 b ?_).1
    rw [← hbl, hbandits]
    exact List.mem_cons_self b bs'
  have hnak : a.num_actions = k := by rw [hna, hbk]
  obtain ⟨out, hout, hlen, hshape, -⟩ := trainRuns_ok a.env.bandits a rng hrng
    (by rw [hnak]; exact hk)
    (by rw [hinit]; exact hpos)
    (by
      intro b' hb'
      rw [hnak]
      refine (hspec.2 b' ?_).2
      rw [← hbl]
      rw [henv] at hb'
      exact hb')
  refine ⟨out, hout, ?_, ?_⟩
  · rw [hlen, henv, hbl, hspec.1]
  · intro p hp
    obtain ⟨p1, p2⟩ := hshape p hp
    exact ⟨by rw [p1, hms], by rw [p2, hms]⟩


/-- C7 witness: a one-run testbed and a zero-step agent — `train` succeeds
with one column of zero-length trajectories. -/
theorem C7_train_shape_witness :
    ∃ out : List (List ℚ × List Bool) × EpsilonGreedy × Rng,
      aC7.train [] = Except.ok out
      ∧ out.1.length = 1
      ∧ ∀ p ∈ out.1, p.1.length = 0 ∧ p.2.length = 0 := by
  refine C7_train_shape 1 2 0 1 1 [0, 0] 0 0 0 false (1/2) aC7 []
    (by decide) rfl ?_
  intro x hx
  cases hx


lemma reset_inv {a a' : EpsilonGreedy} (h : a.reset = Except.ok a') :
    LenInv a' ∧ ValInv a' := by
  obtain ⟨hc, hq, -, -, -, hinit, -, -, hna, -⟩ := reset_ok h
  constructor
  · constructor
    · rw [hq, List.length_replicate, hna]
    · rw [hc, List.length_replicate, hna]
  · intro i hi _
    rw [hq, hinit]
    exact getD_replicate _ (by rwa [hna] at hi)

lemma simple_update_leninv {a : EpsilonGreedy} (action : ℕ) (reward : ℚ)
    (h : LenInv a) : LenInv (a.simple_update action reward) := by
  constructor
  · rw [(simple_update_lengths a action reward).1,
      (simple_update_fields a action reward).2.2.2.2.2.2]
    exact h.1
  · rw [(simple_update_lengths a action reward).2,
      (simple_update_fields a action reward).2.2.2.2.2.2]
    exact h.2

lemma weighted_update_leninv {a : EpsilonGreedy} (action : ℕ) (reward : ℚ)
    (h : LenInv a) : LenInv (a.weighted_update action reward) := by
  constructor
  · rw [(weighted_update_lengths a action reward).1,
      (weighted_update_fields a action reward).2.2.2.2.2.2.1]
    exact h.1
  · rw [(weighted_update_lengths a action reward).2,
      (weighted_update_fields a action reward).2.2.2.2.2.2.1]
    exact h.2

lemma simple_update_valinv {a : EpsilonGreedy} (action : ℕ) (reward : ℚ)
    (hlen : LenInv a) (h : ValInv a) : ValInv (a.simple_update action reward) := by
  intro i hi hcount
  rw [(simple_update_fields a action reward).2.2.2.2.2.2] at hi
  by_cases hia : i = action
  · subst hia
    have hrange : i < a.action_counts.length := by rw [hlen.2]; exact hi
    rw [simple_update_counts_getD reward hrange] at hcount
    omega
  · have hq : (a.simple_update action reward).q_values.getD i 0
        = a.q_values.getD i 0 :=
      getD_set_ne _ (fun hh => hia hh.symm)
    have hc : (a.simple_update action reward).action_counts.getD i 0
        = a.action_counts.getD i 0 :=
      getDN_set_ne _ (fun hh => hia hh.symm)
    rw [hq, (simple_update_fields a action reward).2.2.2.1]
    rw [hc] at hcount
    exact h i hi hcount

lemma runLoop_valinv : ∀ (fuel : ℕ) (b : Bandit) (a : EpsilonGreedy) (rng : Rng)
    (out : List ℚ × List Bool × EpsilonGreedy × Rng),
    runLoop b fuel a rng = Except.ok out →
    a.use_weighted_average = false → LenInv a → ValInv a →
    ValInv out.2.2.1 := by
  intro fuel
  induction fuel with
  | zero =>
    intro b a rng out h huwa hlen hval
    rw [runLoop] at h
    cases h
    exact hval
  | succ n ih =>
    intro b a rng out h huwa hlen hval
    rw [runLoop] at h
    split at h
    · cases h
    · rename_i rw1 heq
      split at h
      · rename_i hcond
        rw [huwa] at hcond
        cases hcond
      · simp only [] at h
        split at h
        · cases h
        · rename_i res heq2
          cases h
          refine ih b _ _ res heq2 ?_ ?_ ?_
          · rw [(simple_update_fields a (a.act rng).1 rw1.1).2.2.2.2.1]
            exact huwa
          · exact simple_update_leninv _ _ hlen
          · exact simple_update_valinv _ _ hlen hval

lemma trainRuns_inv : ∀ (bs : List Bandit) (a : EpsilonGreedy) (rng : Rng)
    (out : List (List ℚ × List Bool) × EpsilonGreedy × Rng),
    trainRuns a rng bs = Except.ok out →
    (LenInv a → LenInv out.2.1)
    ∧ (a.use_weighted_average = false → LenInv a → ValInv a → ValInv out.2.1) := by
  intro bs
  induction bs with
  | nil =>
    intro a rng out h
    rw [trainRuns] at h
    cases h
    exact ⟨id, fun _ _ hv => hv⟩
  | cons b bs ih =>
    intro a rng out h
    rw [trainRuns] at h
    split at h
    · cases h
    · rename_i a1 heq1
      split at h
      · cases h
      · rename_i res heq2
        split at h
        · cases h
        · rename_i rest heq3
          cases h
          have hrinv := reset_inv heq1
          have hpres := runLoop_pres a1.max_steps b a1 rng res heq2
          have hlen2 : LenInv res.2.2.1 := by
            constructor
            · rw [hpres.2.2.2.2.2.2.2.1, hpres.2.2.2.2.2.2.1]
              exact hrinv.1.1
            · rw [hpres.2.2.2.2.2.2.2.2, hpres.2.2.2.2.2.2.1]
              exact hrinv.1.2
          have hih := ih res.2.2.1 res.2.2.2 rest heq3
          constructor
          · intro _
            exact hih.1 hlen2
          · intro huwa _ _
            have huwa1 : a1.use_weighted_average = false := by
              rw [(reset_ok heq1).2.2.2.2.2.2.1]
              exact huwa
            have hval2 : ValInv res.2.2.1 :=
              runLoop_valinv a1.max_steps b a1 rng res heq2 huwa1 hrinv.1 hrinv.2
            refine hih.2 ?_ hlen2 hval2
            rw [hpres.2.2.2.2.1]
            exact huwa1

lemma mk_inv {env : KArmedTestbed} {eps : ℚ} {ms : ℕ} {init : ℚ} {uwa : Bool}
    {al : ℚ} {a : EpsilonGreedy}
    (h : mkEpsilonGreedy env eps ms init uwa al = Except.ok a) :
    LenInv a ∧ ValInv a := by
  cases hb : env.bandits with
  | nil =>
    rw [mkEpsilonGreedy, hb] at h
    cases h
  | cons b bs =>
    rw [mkEpsilonGreedy, hb] at h
    exact reset_inv h

/-- C2 amended: every reachable agent state keeps both sequences at length
`num_actions`; the implication `selection_counts[a] = 0 →
estimated_values[a] = initial_value` holds for every state reachable
without `weighted_update` (reset, act, simple_update, and train under the
sample-average rule). -/
theorem C2_state_invariants :
    (∀ a, Reachable a → LenInv a)
    ∧ (∀ a, ReachableSA a → LenInv a ∧ ValInv a) := by
  constructor
  · intro a h
    induction h with
    | mk_ok env eps ms init uwa al a h => exact (mk_inv h).1
    | reset a a' h h2 ih => exact (reset_inv h2).1
    | simple a action reward h ih => exact simple_update_leninv action reward ih
    | weighted a action reward h ih => exact weighted_update_leninv action reward ih
    | train a rng out h h2 ih =>
      exact (trainRuns_inv a.env.bandits a rng out h2).1 ih
  · intro a h
    induction h with
    | mk_ok env eps ms init uwa al a h => exact mk_inv h
    | reset a a' h h2 ih => exact reset_inv h2
    | simple a action reward h ih =>
      exact ⟨simple_update_leninv action reward ih.1,
        simple_update_valinv action reward ih.1 ih.2⟩
    | train a rng out h huwa h2 ih =>
      have ht := trainRuns_inv a.env.bandits a rng out h2
      exact ⟨ht.1 ih.1, ht.2 huwa ih.1 ih.2⟩

/-- C2 witness: the invariants instantiated on the freshly constructed
fixture agent. -/
theorem C2_state_invariants_witness : LenInv agentFix ∧ ValInv agentFix := by
  have h2 := C2_state_invariants.2 agentFix
    (ReachableSA.mk_ok envFix 0 10 0 false (1/2) agentFix rfl)
  exact ⟨h2.1, h2.2⟩

/-- C2 counterexample: `weighted_update` is one of the agent's operations,
yet after `weighted_update(0, 4)` on a freshly constructed agent the count
of action `0` is still `0` while its estimate is `2 ≠ initial_value = 0` —
the claimed invariant fails on a reachable state. -/
theorem C2_counterexample :
    Reachable (agentFix.weighted_update 0 4)
    ∧ 0 < (agentFix.weighted_update 0 4).num_actions
    ∧ (agentFix.weighted_update 0 4).action_counts.getD 0 0 = 0
    ∧ (agentFix.weighted_update 0 4).q_values.getD 0 0
        ≠ (agentFix.weighted_update 0 4).initialisation := by
  refine ⟨Reachable.weighted agentFix 0 4
    (Reachable.mk_ok envFix 0 10 0 false (1/2) agentFix rfl), by decide, rfl, ?_⟩
  rw [weighted_update_q_getD 4 (by decide)]
  show (0 : ℚ) + 1/2 * (4 - 0) ≠ 0
  norm_num

/-! ## Constructor validation behaviour -/

lemma npArgmax_ne_nil {l : List ℚ} (h : l ≠ []) :
    npArgmax l = Except.ok (argmaxFirst l) := by
  cases l with
  | nil => exact absurd rfl h
  | cons x xs => rfl

lemma mkBanditE_eq {k : ℕ} (hk : 0 < k) (km ks bstd : ℚ) (rng : Rng) :
    mkBanditE k km ks bstd rng = Except.ok (mkBandit k km ks bstd rng) := by
  have hne : (normals km ks k rng).1 ≠ [] :=
    List.ne_nil_of_length_pos (by rw [normals_length]; omega)
  simp only [mkBanditE, mkBandit, npArgmax_ne_nil hne]

lemma mkBanditsE_eq {k : ℕ} (hk : 0 < k) (km ks bstd : ℚ) : ∀ (n : ℕ) (rng : Rng),
    mkBanditsE k km ks bstd n rng = Except.ok (mkBandits k km ks bstd n rng) := by
  intro n
  induction n with
  | zero => intro rng; rfl
  | succ n ih =>
    intro rng
    simp only [mkBanditsE, mkBandits, mkBanditE_eq hk, ih]

lemma mkKArmedTestbedE_eq {k : ℕ} (hk : 0 < k) (nr : ℕ) (km ks bstd : ℚ)
    (rng : Rng) :
    mkKArmedTestbedE nr k km ks bstd rng
      = Except.ok (mkKArmedTestbed nr k km ks bstd rng) := by
  simp only [mkKArmedTestbedE, mkKArmedTestbed, mkBanditsE_eq hk]

lemma mkBanditsE_zero_err (km ks bstd : ℚ) (m : ℕ) (rng : Rng) :
    mkBanditsE 0 km ks bstd (m + 1) rng
      = Except.error "ValueError: attempt to get argmax of an empty sequence" :=
  rfl

/-- C4 counterexample: a construction call with `epsilon = 2 ∉ [0,1]`,
`alpha = 2 ∉ (0,1]` and `max_steps = 0` is accepted without any error, and
the testbed constructor accepts `num_runs = 0`; no configuration error is
raised. -/
theorem C4_counterexample :
    mkEpsilonGreedy envFix 2 0 0 false 2
      = Except.ok { agentFix with epsilon := 2, max_steps := 0, alpha := 2 }
    ∧ mkKArmedTestbedE 0 2 0 1 1 []
      = Except.ok ({ num_runs := 0, k := 2, k_mean := 0, k_std := 1,
                     bandit_std := 1, bandits := [] }, []) := by
  constructor
  · rfl
  · rfl

/-- C4 amended: neither constructor validates `epsilon`, `alpha`,
`max_steps` or `num_runs`. The agent constructor succeeds exactly when the
testbed has at least one bandit (otherwise the `IndexError` reading
`env.bandits[0]`) and `initial_value` is nonnegative (otherwise the
`ValueError` raised by `reset`). The testbed constructor succeeds exactly
when `0 < num_actions` or `num_runs = 0`: with runs to build and
`num_actions = 0`, the first bandit's `np.argmax` of the empty `q_star`
raises a `ValueError` (a negative `num_actions` already fails inside
`np.random.normal`); no other parameter is checked. -/
theorem C4_constructor_no_validation :
    (∀ (env : KArmedTestbed) (eps : ℚ) (ms : ℕ) (init : ℚ) (uwa : Bool) (al : ℚ),
        (∃ a, mkEpsilonGreedy env eps ms init uwa al = Except.ok a)
          ↔ (env.bandits ≠ [] ∧ 0 ≤ init))
    ∧ (∀ (nr k : ℕ) (km ks bstd : ℚ) (rng : Rng),
        (∃ out, mkKArmedTestbedE nr k km ks bstd rng = Except.ok out)
          ↔ (0 < k ∨ nr = 0)) := by
  constructor
  · intro env eps ms init uwa al
    cases hb : env.bandits with
    | nil =>
      rw [mkEpsilonGreedy, hb]
      simp
    | cons b bs =>
      rw [mkEpsilonGreedy, hb]
      constructor
      · rintro ⟨a, ha⟩
        obtain ⟨-, -, -, -, -, -, -, -, -, hpos⟩ := reset_ok ha
        exact ⟨by simp [hb], hpos⟩
      · rintro ⟨-, hinit⟩
        exact reset_ok_of_nonneg hinit
  · intro nr k km ks bstd rng
    constructor
    · rintro ⟨out, hout⟩
      by_contra hcon
      push_neg at hcon
      have hk0 : k = 0 := by omega
      obtain ⟨m, hm⟩ : ∃ m, nr = m + 1 := ⟨nr - 1, by omega⟩
      subst hk0
      subst hm
      rw [mkKArmedTestbedE, mkBanditsE_zero_err] at hout
      cases hout
    · intro h
      rcases h with hk | hnr
      · exact ⟨_, mkKArmedTestbedE_eq hk nr km ks bstd rng⟩
      · subst hnr
        exact ⟨_, rfl⟩

/-- C4 amended witness: the fixture testbed accepts `epsilon = 2`,
`alpha = 2`, `max_steps = 0`, and a one-run testbed with zero arms fails —
both iffs instantiated at concrete inputs. -/
theorem C4_constructor_no_validation_witness :
    ((∃ a, mkEpsilonGreedy envFix 2 0 0 false 2 = Except.ok a)
      ↔ (envFix.bandits ≠ [] ∧ (0 : ℚ) ≤ 0))
    ∧ ((∃ out, mkKArmedTestbedE 1 0 0 1 1 [] = Except.ok out)
      ↔ ((0 : ℕ) < 0 ∨ (1 : ℕ) = 0)) :=
  ⟨C4_constructor_no_validation.1 envFix 2 0 0 false 2,
   C4_constructor_no_validation.2 1 0 0 1 1 []⟩
